import Mathlib

/-!
Verification of the mlcli versioned ML-job-configuration store
(`src/mlcli.js`) against its specification.

The JavaScript source is shallowly embedded: JSON documents become the
inductive type `Json` (JSON numbers are modelled as integers, which covers
every numeric literal the tool manipulates), `JSON.stringify` becomes
`Json.serialize`, the per-job version directory becomes `JobStore`, and each
CLI action / HTTP handler becomes a pure Lean function over those types.
External library behaviour that the repository delegates to (json-diff's
`diffString`, the diff package's `diffLines`, json2csv, markdown-table) is
modelled from the specification; those definitions carry a
`Modelled from the spec:` doc comment.
-/

/-- A JSON document as manipulated by mlcli: an arbitrarily nested mapping of
string keys to scalars, sequences or nested documents. Object fields are kept
in insertion order, exactly as JavaScript objects and `JSON.parse` preserve
them. -/
inductive Json where
  | null
  | bool (b : Bool)
  | num (n : Int)
  | str (s : String)
  | arr (xs : List Json)
  | obj (fields : List (String × Json))

/-- Escape of a single character inside a JSON string literal
(quote and backslash, the cases relevant to the embedded documents). -/
def escChar (c : Char) : String :=
  if c == '"' then "\\\"" else if c == '\\' then "\\\\" else String.singleton c

/-- A JSON string literal: surrounding quotes plus escaping. -/
def jsonQuote (s : String) : String :=
  "\"" ++ String.join (s.data.map escChar) ++ "\""

mutual

/-- Compact `JSON.stringify(x)` (no-indentation form, no indentation): the raw,
insertion-order-preserving serialization that `src/mlcli.js:78` compares to
detect changes. -/
def Json.serialize : Json → String
  | .null => "null"
  | .bool b => if b then "true" else "false"
  | .num n => toString n
  | .str s => jsonQuote s
  | .arr xs => "[" ++ String.intercalate "," (serializeList xs) ++ "]"
  | .obj fs => "\x7b" ++ String.intercalate "," (serializeFields fs) ++ "\x7d"
termination_by structural j => j

/-- Serialization of the elements of a JSON array, in order. -/
def serializeList : List Json → List String
  | [] => []
  | x :: xs => Json.serialize x :: serializeList xs
termination_by structural xs => xs

/-- Serialization of the fields of a JSON object, in insertion order. -/
def serializeFields : List (String × Json) → List String
  | [] => []
  | (k, v) :: fs => (jsonQuote k ++ ":" ++ Json.serialize v) :: serializeFields fs
termination_by structural fs => fs

end

/-- Lexicographic order on character lists by code point, the order used to
canonically sort object keys. -/
def charListLt : List Char → List Char → Bool
  | [], [] => false
  | [], _ :: _ => true
  | _ :: _, [] => false
  | c :: cs, d :: ds =>
    if c.toNat < d.toNat then true
    else if d.toNat < c.toNat then false
    else charListLt cs ds

/-- String comparison by code points (the order JavaScript string comparison
induces on the ASCII keys appearing in job documents). -/
def strLt (a b : String) : Bool := charListLt a.data b.data

/-- Insert a field into a key-sorted field list (insertion-sort step for
canonicalization). -/
def insertField (kv : String × Json) : List (String × Json) → List (String × Json)
  | [] => [kv]
  | kv2 :: rest => if strLt kv.1 kv2.1 then kv :: kv2 :: rest else kv2 :: insertField kv rest

mutual

/-- Modelled from the spec: canonicalization — "producing a stable,
order-independent serialized form used for equality and diffing": object keys
are sorted recursively; arrays and scalars are unchanged. -/
def Json.canon : Json → Json
  | .null => .null
  | .bool b => .bool b
  | .num n => .num n
  | .str s => .str s
  | .arr xs => .arr (canonList xs)
  | .obj fs => .obj (canonFields fs)
termination_by structural j => j

/-- Canonicalization of the elements of a JSON array. -/
def canonList : List Json → List Json
  | [] => []
  | x :: xs => Json.canon x :: canonList xs
termination_by structural xs => xs

/-- Canonicalization of the fields of a JSON object: canonicalize each value,
then key-sort the field list. -/
def canonFields : List (String × Json) → List (String × Json)
  | [] => []
  | (k, v) :: fs => insertField (k, Json.canon v) (canonFields fs)
termination_by structural fs => fs

end

/-- Modelled from the spec: the canonical serialization ("stable key ordering,
recursive") that the spec claims is the basis for change detection. -/
def canonicalSerialize (j : Json) : String := j.canon.serialize

/-- Field lookup in a JSON object field list (JavaScript property access). -/
def lookupField (fs : List (String × Json)) (k : String) : Option Json :=
  (fs.find? (fun kv => kv.1 == k)).map (·.2)

/-- Property access `doc[k]` on a JSON document. -/
def Json.getField : Json → String → Option Json
  | .obj fs, k => lookupField fs k
  | _, _ => none

/-- JavaScript `Object.entries(doc)`: the field list of an object, else empty. -/
def entriesOf : Json → List (String × Json)
  | .obj fs => fs
  | _ => []

/-- One entry of a summarized structural diff: a key path that was added,
removed, or changed. -/
inductive DiffOp where
  | addedKey (path : List String)
  | removedKey (path : List String)
  | changedValue (path : List String)
  deriving DecidableEq

/-- Prefix a diff entry's path with an enclosing object key. -/
def DiffOp.underKey (k : String) : DiffOp → DiffOp
  | .addedKey p => .addedKey (k :: p)
  | .removedKey p => .removedKey (k :: p)
  | .changedValue p => .changedValue (k :: p)

mutual

/-- Modelled from the spec: the external json-diff library's structural diff —
"recursive structural diff reporting added, removed, and changed keys/values
between two documents"; canonically equal subtrees contribute no entries. -/
def diffJson : Json → Json → List DiffOp
  | a, b =>
    if canonicalSerialize a == canonicalSerialize b then []
    else
      match a, b with
      | .obj fa, .obj fb =>
        diffFieldsAgainst fa fb ++
          fb.filterMap
            (fun kv => if (lookupField fa kv.1).isNone then some (DiffOp.addedKey [kv.1]) else none)
      | _, _ => [DiffOp.changedValue []]

/-- Diff of the fields of the first object against the second: removed keys and
recursive diffs of shared keys. -/
def diffFieldsAgainst : List (String × Json) → List (String × Json) → List DiffOp
  | [], _ => []
  | (k, v) :: rest, fb =>
    (match lookupField fb k with
     | none => [DiffOp.removedKey [k]]
     | some w => (diffJson v w).map (DiffOp.underKey k)) ++ diffFieldsAgainst rest fb

end

/-- Rendering of one summarized-diff entry as a text line. -/
def renderOp : DiffOp → String
  | .addedKey p => "+ " ++ String.intercalate "." p
  | .removedKey p => "- " ++ String.intercalate "." p
  | .changedValue p => "~ " ++ String.intercalate "." p

/-- Modelled from the spec: `diffString(a, b)` of the json-diff library as
called at `src/mlcli.js:226` — renders the structural diff, producing the
empty string when there are no differences. -/
def diffString (a b : Json) : String :=
  String.intercalate "\n" ((diffJson a b).map renderOp)

/-- The summarized compare output: `diffString(a, b) || "No differences
found."` (`src/mlcli.js:227`). -/
def summarizedOutput (a b : Json) : String :=
  let d := diffString a b
  if d == "" then "No differences found." else d

/-- One part of a line-level diff, with the `added`/`removed` flags of the
diff library; a part with both flags false is a context part. -/
structure DiffPart where
  added : Bool
  removed : Bool
  value : String
  deriving DecidableEq

/-- Modelled from the spec: the diff library's `diffLines` — a line-level diff
whose parts are added, removed, or context; matching lines yield context
parts. This model emits context parts for lines common in lockstep and
add/remove parts otherwise (a valid, if not minimal, edit script). -/
def lineDiff : List String → List String → List DiffPart
  | [], [] => []
  | [], ys => ys.map (fun y => ⟨true, false, y⟩)
  | x :: xs, [] => ⟨false, true, x⟩ :: lineDiff xs []
  | x :: xs, y :: ys =>
    if x == y then ⟨false, false, x⟩ :: lineDiff xs ys
    else ⟨false, true, x⟩ :: lineDiff xs (y :: ys)

/-- A run of `n` spaces (pretty-printer indentation). -/
def spaces (n : Nat) : String := String.mk (List.replicate n ' ')

mutual

/-- Pretty `JSON.stringify(x, null, 2)`: pretty-printed serialization with stable
two-space indentation, as used for version files (`src/mlcli.js:86`), the
full line diff (`src/mlcli.js:231`) and the JSON export (`src/mlcli.js:287`).
The argument is the current indentation of the enclosing value. -/
def prettyJson : Nat → Json → String
  | _, .null => "null"
  | _, .bool b => if b then "true" else "false"
  | _, .num n => toString n
  | _, .str s => jsonQuote s
  | _, .arr [] => "[]"
  | indent, .arr (x :: xs) =>
    "[\n" ++ String.intercalate ",\n" (prettyItems (indent + 2) (x :: xs)) ++
      "\n" ++ spaces indent ++ "]"
  | _, .obj [] => "\x7b\x7d"
  | indent, .obj (f :: fs) =>
    "\x7b\n" ++ String.intercalate ",\n" (prettyFields (indent + 2) (f :: fs)) ++
      "\n" ++ spaces indent ++ "\x7d"
termination_by structural _ j => j

/-- Pretty-printed array elements, each on its own indented line. -/
def prettyItems : Nat → List Json → List String
  | _, [] => []
  | indent, x :: xs => (spaces indent ++ prettyJson indent x) :: prettyItems indent xs
termination_by structural _ xs => xs

/-- Pretty-printed object fields, each on its own indented line. -/
def prettyFields : Nat → List (String × Json) → List String
  | _, [] => []
  | indent, (k, v) :: fs =>
    (spaces indent ++ jsonQuote k ++ ": " ++ prettyJson indent v) :: prettyFields indent fs
termination_by structural _ fs => fs

end

/-- Top-level pretty serialization, `JSON.stringify(x, null, 2)`. -/
def serializePretty (j : Json) : String := prettyJson 0 j

/-- The lines of a string, split on newline characters. -/
def splitLines (s : String) : List String := s.splitOn "\n"

/-- The full line-level diff view of two documents over their pretty-printed
forms (`src/mlcli.js:231`). -/
def fullDiffParts (a b : Json) : List DiffPart :=
  lineDiff (splitLines (serializePretty a)) (splitLines (serializePretty b))

/-- The persisted API credential (`.mlcli/auth.json`); `none` models the
absent/null key (`loadAuth`, `src/mlcli.js:25`). -/
structure AuthState where
  apiKey : Option String

/-- Modelled from the spec: `saveAuth` is called at `src/mlcli.js:454` but not
defined under `src/`; per the spec it persists the ApiCredential, overwriting
any existing stored credential ("no history retained"). -/
def saveAuth (key : String) : AuthState := ⟨some key⟩

/-- One hexadecimal digit character. -/
def hexDigitChar (n : Nat) : Char :=
  match n with
  | 0 => '0' | 1 => '1' | 2 => '2' | 3 => '3' | 4 => '4'
  | 5 => '5' | 6 => '6' | 7 => '7' | 8 => '8' | 9 => '9'
  | 10 => 'a' | 11 => 'b' | 12 => 'c' | 13 => 'd' | 14 => 'e'
  | _ => 'f'

/-- The two hex characters of one byte. -/
def byteToHexChars (b : Nat) : List Char := [hexDigitChar (b / 16), hexDigitChar (b % 16)]

/-- Hex characters of a byte sequence. -/
def hexChars : List Nat → List Char
  | [] => []
  | b :: bs => byteToHexChars b ++ hexChars bs

/-- Node `Buffer.toString("hex")`: hex encoding of a byte sequence. -/
def hexEncode (bytes : List Nat) : String := String.mk (hexChars bytes)

/-- The `auth --generate` action (`src/mlcli.js:452`):
`crypto.randomBytes(32).toString("hex")` then `saveAuth`. The 32 random bytes
are the explicit input; the result is the new state plus the printed token. -/
def authGenerate (randomBytes : List Nat) : AuthState × String :=
  let apiKey := hexEncode randomBytes
  (saveAuth apiKey, apiKey)

/-- Outcome of the `apiAuth` middleware: HTTP 500, HTTP 403, or pass-through
to the handler. -/
inductive AuthDecision where
  | misconfigured
  | unauthorized
  | authorized
  deriving DecidableEq

/-- JavaScript truthiness of an optional request-header / query-parameter
string: absent and empty are falsy. -/
def truthy : Option String → Bool
  | none => false
  | some s => !(s == "")

/-- The `apiAuth` middleware (`src/mlcli.js:468`): 500 when no credential is
configured (`!auth.apiKey`, which is falsy for an absent or empty key), 403
when the `x-api-key` header is absent or differs from the stored credential,
otherwise pass-through. -/
def apiAuth (auth : AuthState) (userApiKey : Option String) : AuthDecision :=
  match auth.apiKey with
  | none => .misconfigured
  | some k =>
    if k == "" then .misconfigured
    else if !truthy userApiKey || !(userApiKey.getD "" == k) then .unauthorized
    else .authorized

/-- The commands registered on the commander program, in source order, paired
with whether that registration's `serve` action installs the `apiAuth`
middleware (`app.use(apiAuth)`); the flag is `false` for non-serve commands.
The first `serve` registration (`src/mlcli.js:330`) installs no middleware;
the second (`src/mlcli.js:482`) installs `apiAuth`. -/
def registeredCommands : List (String × Bool) :=
  [("import", false), ("search", false), ("compare", false), ("export", false),
   ("settings", false), ("serve", false), ("auth", false), ("serve", true)]

/-- Commander's command dispatch: `Array.prototype.find` returns the first
registration whose name matches. -/
def findCommand (name : String) : Option (String × Bool) :=
  registeredCommands.find? (fun c => c.1 == name)

/-- Whether the `serve` command that commander actually dispatches installs
the `apiAuth` middleware. -/
def dispatchedServeUsesAuth : Bool :=
  ((findCommand "serve").map (·.2)).getD true

/-- HTTP status of a request to the running server: the middleware chain
(when installed) maps `apiAuth` outcomes to 500/403, otherwise the request
reaches the route handler and obtains the handler's status. -/
def serveRequest (usesApiAuth : Bool) (auth : AuthState) (header : Option String)
    (handlerStatus : Nat) : Nat :=
  if usesApiAuth then
    match apiAuth auth header with
    | .misconfigured => 500
    | .unauthorized => 403
    | .authorized => handlerStatus
  else handlerStatus

/-- The result the spec's `Put` reports: the version touched and whether a new
version entry was created. -/
structure ImportResult where
  version : Nat
  wasCreated : Bool
  deriving DecidableEq

/-- The on-disk state of one job directory `jobs/<job_id>/`: the version files
`v<N>.json` as (version number, snapshot) pairs in creation order, plus the
`latest.json` copy when present. -/
structure JobStore where
  entries : List (Nat × Json)
  latest : Option Json

/-- A job directory before any import. -/
def emptyJobStore : JobStore := ⟨[], none⟩

/-- One import of a record for a job (`src/mlcli.js:74` to `92`): compare the
raw serialization of `latest.json` with the incoming record; when they differ
(or no latest exists), allocate version `count(existing version files) + 1`,
append the new version file and update `latest.json`; otherwise change
nothing. -/
def importJob (s : JobStore) (rec : Json) : JobStore × ImportResult :=
  let isChanged :=
    match s.latest with
    | some l => !(Json.serialize l == Json.serialize rec)
    | none => true
  if isChanged then
    let newVersion := s.entries.length + 1
    ({ entries := s.entries ++ [(newVersion, rec)], latest := some rec }, ⟨newVersion, true⟩)
  else
    (s, ⟨s.entries.length, false⟩)

/-- Run a sequence of imports against a job directory, first to last. -/
def runImportsFrom (s : JobStore) : List Json → JobStore
  | [] => s
  | r :: rs => runImportsFrom (importJob s r).1 rs

/-- Run a sequence of imports starting from an empty job directory. -/
def runImports (rs : List Json) : JobStore := runImportsFrom emptyJobStore rs

/-- Insertion step of descending sort on version numbers. -/
def insertDesc (x : Nat) : List Nat → List Nat
  | [] => [x]
  | y :: ys => if y ≤ x then x :: y :: ys else y :: insertDesc x ys

/-- JavaScript `versionFiles.sort((a, b) => b - a)`: numeric descending sort of the
parsed version numbers (`src/mlcli.js:201`). -/
def sortVersionsDesc (l : List Nat) : List Nat := l.foldr insertDesc []

/-- The version numbers of a job in descending order, as the compare paths
list them (readdir, filter `v*.json`, parse, sort descending). -/
def listVersionsDesc (s : JobStore) : List Nat :=
  sortVersionsDesc (s.entries.map (·.1))

/-- Number a document list as consecutive version entries starting above `n`:
the snapshot at offset `k` gets version `n + k + 1`. -/
def numberFrom : Nat → List Json → List (Nat × Json)
  | _, [] => []
  | n, r :: rs => (n + 1, r) :: numberFrom (n + 1) rs

/-- The job directory whose version files are exactly the given snapshots,
numbered `1..N` in order, with `latest.json` the last snapshot. -/
def storeOf (docs : List Json) : JobStore := ⟨numberFrom 0 docs, docs.getLast?⟩

/-- Two documents whose raw serializations differ — the code's notion of "the
content changed". -/
def neSer (a b : Json) : Prop := Json.serialize a ≠ Json.serialize b

instance (a b : Json) : Decidable (neSer a b) :=
  inferInstanceAs (Decidable (Json.serialize a ≠ Json.serialize b))

/-- Lookup of the version file `v<n>.json` built from a numeric version, as
the CLI compare does (`src/mlcli.js:211`): the numeric key determines the
file name, so file-name equality coincides with numeric equality. -/
def lookupNum (entries : List (Nat × Json)) (v : Nat) : Option Json :=
  (entries.find? (fun e => e.1 == v)).map (·.2)

/-- Lookup of the version file `v<s>.json` built from a (query-parameter)
string, as the HTTP compare handler does (`src/mlcli.js:385`): an entry
matches when its file name, formed from its numeric version, equals the
requested name. -/
def findVersion (entries : List (Nat × Json)) (s : String) : Option Json :=
  (entries.find? (fun e => toString e.1 == s)).map (·.2)

/-- Outcome of the CLI `compare` action for one job (`src/mlcli.js:198` to
`236`). -/
inductive CompareOutcome where
  | notEnoughVersions
  | versionFileMissing
  | report (older newer : Json) (summary : String) (fullView : Option (List DiffPart))

/-- The CLI `compare` action for one existing job: sort version numbers
descending; fewer than two is an error; otherwise `version1 :=
versions[1]` (older) and `version2 := versions[0]` (newer), read both files
and diff `version1 -> version2`, with the full line diff only under
`--full`. -/
def compareAction (s : JobStore) (full : Bool) : CompareOutcome :=
  let versions := listVersionsDesc s
  if versions.length < 2 then .notEnoughVersions
  else
    let version1 := versions.getD 1 0
    let version2 := versions.getD 0 0
    match lookupNum s.entries version1, lookupNum s.entries version2 with
    | some jobData1, some jobData2 =>
      .report jobData1 jobData2 (summarizedOutput jobData1 jobData2)
        (if full then some (fullDiffParts jobData1 jobData2) else none)
    | _, _ => .versionFileMissing

/-- Response of the HTTP `GET /jobs/:id/compare` handler (`src/mlcli.js:364`
to `400`, identical logic in the authenticated registration at `515`). -/
inductive CompareResponse where
  | notFoundJob
  | notEnoughVersions
  | versionsMissing
  | ok (differences : String)
  deriving DecidableEq

/-- The final step of the HTTP compare handler: both looked-up version files
must exist (`src/mlcli.js:388`), else 400; on success the response carries
`diffString || "No differences found."`. -/
def versionMatch (a b : Option Json) : CompareResponse :=
  match a, b with
  | some jobData1, some jobData2 => .ok (summarizedOutput jobData1 jobData2)
  | _, _ => .versionsMissing

/-- The HTTP compare handler: 404 for an unknown job; 400 `NotEnoughVersions`
only when fewer than two versions exist AND at least one of the
`version1`/`version2` query parameters is falsy; otherwise each missing
parameter defaults from the descending version list, both files are looked
up, 400 when either is absent, else 200 with
`diffString || "No differences found."`. -/
def compareHandler (jobExists : Bool) (entries : List (Nat × Json))
    (version1 version2 : Option String) : CompareResponse :=
  if !jobExists then .notFoundJob
  else
    let versionNums := sortVersionsDesc (entries.map (·.1))
    if versionNums.length < 2 ∧ (truthy version1 = false ∨ truthy version2 = false) then
      .notEnoughVersions
    else
      let v1 := if truthy version1 then version1.getD "" else toString (versionNums.getD 1 0)
      let v2 := if truthy version2 then version2.getD "" else toString (versionNums.getD 0 0)
      versionMatch (findVersion entries v1) (findVersion entries v2)

/-- The cell the search table renders for one column of one flattened row
(`src/mlcli.js:158`): `job[header] || "N/A"` — a missing or empty value
renders as `"N/A"`. -/
def rowCell (row : List (String × String)) (h : String) : String :=
  match (row.find? (fun kv => kv.1 == h)).map (·.2) with
  | some v => if v == "" then "N/A" else v
  | none => "N/A"

/-- Projection of one flattened row onto the configured columns, in column
order. -/
def projectRow (cols : List String) (row : List (String × String)) : List String :=
  cols.map (rowCell row)

/-- The search result table (`src/mlcli.js:151` to `159`): the headers are
exactly `settings.columns` (`tableHeaders = selectedColumns`, with no
fallback), and each row is projected onto those headers. -/
def searchTable (cols : List String) (rows : List (List (String × String))) :
    List String × List (List String) :=
  (cols, rows.map (projectRow cols))

/-- Persisted tool settings (`.mlcli/settings.json`): the configured visible
columns, empty by default. -/
structure Settings where
  columns : List String

/-- Errors of the CLI `export` action that terminate the command with a
non-zero exit (`process.exit(1)`). -/
inductive ExportError where
  | noJobsToExport
  | invalidFormat
  deriving DecidableEq

/-- The full export entry built for each job (`src/mlcli.js:261`):
`{ job: fullJobData.job, datafeed: fullJobData.datafeed || {} }`. -/
def fullEntry (d : Json) : Json :=
  .obj [("job", (d.getField "job").getD .null),
        ("datafeed", (d.getField "datafeed").getD (.obj []))]

/-- The column-filtered export entry (`src/mlcli.js:268`): the fields of
`jobEntry.job` whose keys are among the configured columns, in the record's
own field order. -/
def filteredEntry (cols : List String) (d : Json) : Json :=
  .obj ((entriesOf ((d.getField "job").getD .null)).filter (fun kv => cols.contains kv.1))

/-- ASCII lowercasing, `options.format.toLowerCase()` for the format names. -/
def lowerChar (c : Char) : Char :=
  if 'A' ≤ c ∧ c ≤ 'Z' then Char.ofNat (c.toNat + 32) else c

/-- Lowercasing of a format string. -/
def toLowerAscii (s : String) : String := String.mk (s.data.map lowerChar)

/-- Modelled from the spec: the json2csv serialization — "header row = row
keys in the order selected", then one line of serialized values per row. -/
def csvSerialize (jobs : List Json) : String :=
  match jobs with
  | [] => ""
  | j :: _ =>
    String.intercalate "," ((entriesOf j).map (fun kv => jsonQuote kv.1)) ++ "\n" ++
      String.intercalate "\n"
        (jobs.map (fun r => String.intercalate "," ((entriesOf r).map (fun kv => kv.2.serialize))))

/-- Modelled from the spec: the markdown-table serialization — "pipe-delimited
table with one header row and a separator row", built from
`Object.keys(jobs[0])` and the rows' values (`src/mlcli.js:295`). -/
def mdSerialize (jobs : List Json) : String :=
  match jobs with
  | [] => ""
  | j :: _ =>
    "| " ++ String.intercalate " | " ((entriesOf j).map (·.1)) ++ " |\n" ++
      "| " ++ String.intercalate " | " ((entriesOf j).map (fun _ => "---")) ++ " |\n" ++
      String.intercalate "\n"
        (jobs.map (fun r =>
          "| " ++ String.intercalate " | " ((entriesOf r).map (fun kv => kv.2.serialize)) ++ " |"))

/-- The CLI `export` action (`src/mlcli.js:249` to `306`) over the list of
`latest.json` documents of the stored jobs: settings-based column filtering
applies only under `--settings` with non-empty configured columns and only
for the csv/md formats; an empty job set exits non-zero before any file is
written; otherwise the serialized output and its target file are produced. -/
def exportAction (format : String) (settings : Settings) (settingsFlag : Bool)
    (latests : List Json) : Except ExportError (String × String) :=
  let fmt := toLowerAscii format
  let useSettings := settingsFlag && !settings.columns.isEmpty
  let jobs := latests.map
    (fun d => if useSettings && (fmt == "csv" || fmt == "md")
              then filteredEntry settings.columns d else fullEntry d)
  if jobs.isEmpty then .error .noJobsToExport
  else if fmt == "json" then .ok ("exports/jobs.json", serializePretty (.arr jobs))
  else if fmt == "csv" then .ok ("exports/jobs.csv", csvSerialize jobs)
  else if fmt == "md" then .ok ("exports/jobs.md", mdSerialize jobs)
  else .error .invalidFormat

/-- Process exit code of an export run: 1 on error, 0 on success. -/
def exitCodeOf (r : Except ExportError (String × String)) : Nat :=
  match r with
  | .error _ => 1
  | .ok _ => 0

/-- The default column list described by the specification (§6) — stated from
the spec's words, for comparison against the code's behaviour. -/
def specDefaultColumns : List String :=
  ["job_id", "rule_name", "created_by", "groups", "description", "bucket_span",
   "detectors", "influencers", "model_prune_window", "model_memory_limit",
   "cat_limit", "retention_days", "datafeed_id", "indices", "query"]

/-- A small job record as imported by the tool (`{ job: {...} }`). -/
def docA : Json :=
  Json.obj [("job", Json.obj [("job_id", Json.str "j1"), ("description", Json.str "first")])]

/-- A second job record with different content. -/
def docB : Json :=
  Json.obj [("job", Json.obj [("job_id", Json.str "j1"), ("description", Json.str "second")])]

/-- A record with two fields in one key order. -/
def docKeyOrder1 : Json :=
  Json.obj [("job", Json.obj [("job_id", Json.str "j1"), ("description", Json.str "d")])]

/-- The same record with the nested keys in the opposite order: canonically
equal to `docKeyOrder1`, but with a different raw serialization. -/
def docKeyOrder2 : Json :=
  Json.obj [("job", Json.obj [("description", Json.str "d"), ("job_id", Json.str "j1")])]

instance : IsAntisymm Nat (· ≥ ·) := ⟨fun _ _ h1 h2 => Nat.le_antisymm h2 h1⟩

/-- Inserting into the descending sort permutes consing. -/
theorem insertDesc_perm (x : Nat) (l : List Nat) : (insertDesc x l).Perm (x :: l) := by
  induction l with
  | nil => exact List.Perm.refl _
  | cons y ys ih =>
    by_cases h : y ≤ x
    · simp [insertDesc, h]
    · simp only [insertDesc, h, if_neg, if_false]
      exact (ih.cons y).trans (List.Perm.swap x y ys)

/-- The descending sort is a permutation of its input. -/
theorem sortVersionsDesc_perm (l : List Nat) : (sortVersionsDesc l).Perm l := by
  induction l with
  | nil => exact List.Perm.refl _
  | cons x xs ih =>
    have : sortVersionsDesc (x :: xs) = insertDesc x (sortVersionsDesc xs) := rfl
    rw [this]
    exact (insertDesc_perm x (sortVersionsDesc xs)).trans (ih.cons x)

/-- The descending sort preserves length. -/
theorem sortVersionsDesc_length (l : List Nat) :
    (sortVersionsDesc l).length = l.length :=
  (sortVersionsDesc_perm l).length_eq

/-- Insertion preserves descending sortedness. -/
theorem insertDesc_sorted (x : Nat) (l : List Nat) (h : l.Sorted (· ≥ ·)) :
    (insertDesc x l).Sorted (· ≥ ·) := by
  induction l with
  | nil => simp [insertDesc]
  | cons y ys ih =>
    rcases List.sorted_cons.mp h with ⟨hy, hys⟩
    by_cases hyx : y ≤ x
    · simp only [insertDesc, hyx, if_pos]
      refine List.sorted_cons.mpr ⟨?_, h⟩
      intro b hb
      rcases List.mem_cons.mp hb with rfl | hb
      · exact hyx
      · exact le_trans (hy b hb) hyx
    · simp only [insertDesc, hyx, if_neg, if_false]
      refine List.sorted_cons.mpr ⟨?_, ih hys⟩
      intro b hb
      have hmem := (insertDesc_perm x ys).mem_iff.mp hb
      rcases List.mem_cons.mp hmem with rfl | hb2
      · exact Nat.le_of_not_le hyx
      · exact hy b hb2

/-- The descending sort is sorted for `≥`. -/
theorem sortVersionsDesc_sorted (l : List Nat) :
    (sortVersionsDesc l).Sorted (· ≥ ·) := by
  induction l with
  | nil => simp [sortVersionsDesc]
  | cons x xs ih => exact insertDesc_sorted x (sortVersionsDesc xs) ih

/-- The reverse of an ascending range is sorted for `≥`. -/
theorem sorted_ge_reverse_range' (s n : Nat) :
    ((List.range' s n).reverse).Sorted (· ≥ ·) := by
  rw [List.Sorted, List.pairwise_reverse]
  exact (List.pairwise_lt_range' s n 1 (by omega)).imp (fun h => Nat.le_of_lt h)

/-- Sorting a contiguous ascending range descending reverses it. -/
theorem sortVersionsDesc_range' (s n : Nat) :
    sortVersionsDesc (List.range' s n) = (List.range' s n).reverse := by
  refine List.eq_of_perm_of_sorted ?_ (sortVersionsDesc_sorted _) (sorted_ge_reverse_range' s n)
  exact (sortVersionsDesc_perm _).trans (List.reverse_perm _).symm

/-- The reverse of a range of length `n + 1` starts at its top element. -/
theorem reverse_range'_succ (n : Nat) :
    (List.range' 1 (n + 1)).reverse = (n + 1) :: (List.range' 1 n).reverse := by
  rw [List.range'_concat]
  simp [Nat.add_comm]

/-- Numbering preserves length. -/
theorem numberFrom_length (docs : List Json) : ∀ n, (numberFrom n docs).length = docs.length := by
  induction docs with
  | nil => intro n; rfl
  | cons d ds ih => intro n; simp [numberFrom, ih]

/-- Numbering distributes over append, shifting the start. -/
theorem numberFrom_append (xs ys : List Json) :
    ∀ n, numberFrom n (xs ++ ys) = numberFrom n xs ++ numberFrom (n + xs.length) ys := by
  induction xs with
  | nil => intro n; simp [numberFrom]
  | cons x xs ih =>
    intro n
    simp only [List.cons_append, numberFrom, List.append_eq, List.length_cons]
    rw [ih (n + 1)]
    have : n + 1 + xs.length = n + (xs.length + 1) := by omega
    rw [this]

/-- The version numbers of `numberFrom n docs` are the range above `n`. -/
theorem numberFrom_map_fst (docs : List Json) :
    ∀ n, (numberFrom n docs).map (·.1) = List.range' (n + 1) docs.length := by
  induction docs with
  | nil => intro n; rfl
  | cons d ds ih =>
    intro n
    simp [numberFrom, List.range'_succ, ih (n + 1)]

/-- Numeric version lookup in a numbered snapshot list hits the snapshot at
the matching offset. -/
theorem lookupNum_numberFrom (docs : List Json) :
    ∀ n k, k < docs.length → lookupNum (numberFrom n docs) (n + k + 1) = docs[k]? := by
  induction docs with
  | nil => intro n k h; simp at h
  | cons d ds ih =>
    intro n k hk
    match k with
    | 0 => simp [numberFrom, lookupNum, List.find?]
    | k' + 1 =>
      have harith : n + (k' + 1) + 1 = n + 1 + k' + 1 := by omega
      rw [harith]
      have hne : (n + 1 == n + 1 + k' + 1) = false := by
        rw [beq_eq_false_iff_ne]; omega
      have := ih (n + 1) k' (by simpa using hk)
      simp only [numberFrom, lookupNum, List.find?, hne] at this ⊢
      simpa using this

/-- One import against the materialized store of `docs`, when the incoming
record differs from the current latest (or none exists), appends the next
numbered snapshot. -/
theorem importJob_storeOf_append (docs : List Json) (r : Json)
    (h : ∀ l, docs.getLast? = some l → neSer l r) :
    importJob (storeOf docs) r = (storeOf (docs ++ [r]), ⟨docs.length + 1, true⟩) := by
  have hlen : (numberFrom 0 docs).length = docs.length := numberFrom_length docs 0
  have hentries : numberFrom 0 (docs ++ [r]) = numberFrom 0 docs ++ [(docs.length + 1, r)] := by
    rw [numberFrom_append]
    simp [numberFrom]
  have hlast : (docs ++ [r]).getLast? = some r := by
    simp [List.getLast?_concat]
  cases hl : docs.getLast? with
  | none =>
    simp only [importJob, storeOf, hl, hentries, hlast, hlen]
    simp
  | some l =>
    have hne : (Json.serialize l == Json.serialize r) = false := by
      rw [beq_eq_false_iff_ne]; exact h l hl
    simp only [importJob, storeOf, hl, hne, hentries, hlast, hlen, Bool.not_false, if_pos]

/-- Running a chain of pairwise-changing imports against a materialized store
appends the corresponding numbered snapshots. -/
theorem runImportsFrom_storeOf (rs : List Json) :
    ∀ docs, List.Chain' neSer (docs.getLast?.toList ++ rs) →
      runImportsFrom (storeOf docs) rs = storeOf (docs ++ rs) := by
  induction rs with
  | nil => intro docs _; simp [runImportsFrom]
  | cons r rs ih =>
    intro docs h
    have hstep : ∀ l, docs.getLast? = some l → neSer l r := by
      intro l hl
      rw [hl] at h
      exact (List.chain'_cons.mp h).1
    have htail : List.Chain' neSer ((docs ++ [r]).getLast?.toList ++ rs) := by
      have hlast : (docs ++ [r]).getLast? = some r := by simp [List.getLast?_concat]
      rw [hlast]
      cases hl : docs.getLast? with
      | none => rw [hl] at h; simpa using h
      | some l => rw [hl] at h; simpa using (List.chain'_cons.mp h).2
    rw [runImportsFrom, importJob_storeOf_append docs r hstep]
    have := ih (docs ++ [r]) htail
    rw [this, List.append_assoc]
    rfl

/-- A chain of pairwise-changing imports from an empty job directory builds
exactly the numbered store of the imported records. -/
theorem runImports_eq_storeOf (rs : List Json) (h : List.Chain' neSer rs) :
    runImports rs = storeOf rs := by
  have h0 : List.Chain' neSer (((List.nil (α := Json)).getLast?).toList ++ rs) := by simpa using h
  have := runImportsFrom_storeOf rs [] h0
  simpa [runImports, storeOf, emptyJobStore, numberFrom] using this

/-- The version listing of a materialized store is the descending contiguous
range `N, ..., 1`. -/
theorem listVersionsDesc_storeOf (docs : List Json) :
    listVersionsDesc (storeOf docs) = (List.range' 1 docs.length).reverse := by
  rw [listVersionsDesc, storeOf]
  show sortVersionsDesc ((numberFrom 0 docs).map (·.1)) = _
  rw [numberFrom_map_fst docs 0]
  exact sortVersionsDesc_range' 1 docs.length

/-- Claim C1 (violated by the code): the HTTP surface is required to gate every
request on `x-api-key`, but commander dispatches the FIRST registration of a
command name, and the first `serve` registration installs no `apiAuth`
middleware — a request with no key at all reaches the handler and gets its
200, while the shadowed authenticated registration would have answered 403
(or 500 when unconfigured). -/
theorem serve_dispatch_unauthenticated :
    findCommand "serve" = some ("serve", false)
    ∧ dispatchedServeUsesAuth = false
    ∧ serveRequest dispatchedServeUsesAuth ⟨some "configured-secret"⟩ none 200 = 200
    ∧ serveRequest true ⟨some "configured-secret"⟩ none 200 = 403
    ∧ serveRequest true ⟨none⟩ none 200 = 500 := by
  decide

/-- Claim C2, counterexample: two records that differ only in object-key order
have equal canonical serializations, yet the import of the reordered record
against a store whose latest is the other one IS detected as changed — it
creates version 2 and changes the version listing, because the code compares
raw `JSON.stringify` output (`src/mlcli.js:78`), not canonical forms. -/
theorem import_key_order_counterexample :
    canonicalSerialize docKeyOrder2 = canonicalSerialize docKeyOrder1
    ∧ (runImports [docKeyOrder1]).latest = some docKeyOrder1
    ∧ (importJob (runImports [docKeyOrder1]) docKeyOrder2).2.wasCreated = true
    ∧ listVersionsDesc (importJob (runImports [docKeyOrder1]) docKeyOrder2).1 = [2, 1]
    ∧ listVersionsDesc (runImports [docKeyOrder1]) = [1] :=
  ⟨by decide, rfl, by decide, by decide, by decide⟩

/-- Claim C2 as amended: the no-op test is RAW serialization equality
(insertion-order-preserving `JSON.stringify`), not canonical equality. When
the incoming record's raw serialization equals that of the current latest,
the import writes no new version entry, reports `wasCreated = false` with the
existing version count, and leaves the version listing unchanged. -/
theorem import_unchanged_raw_serialization (s : JobStore) (l rec : Json)
    (hl : s.latest = some l) (h : Json.serialize rec = Json.serialize l) :
    importJob s rec = (s, ⟨s.entries.length, false⟩)
    ∧ listVersionsDesc (importJob s rec).1 = listVersionsDesc s := by
  have hb : (Json.serialize l == Json.serialize rec) = true := by
    rw [h]
    exact beq_self_eq_true _
  have h1 : importJob s rec = (s, ⟨s.entries.length, false⟩) := by
    simp [importJob, hl, hb]
  exact ⟨h1, by rw [h1]⟩

/-- Witness for the amended claim C2 at a concrete store: re-importing the
byte-identical latest record is a no-op. -/
theorem import_unchanged_raw_serialization_witness :
    importJob (runImports [docKeyOrder1]) docKeyOrder1 =
      (runImports [docKeyOrder1], ⟨1, false⟩) :=
  (import_unchanged_raw_serialization (runImports [docKeyOrder1]) docKeyOrder1 docKeyOrder1
    rfl rfl).1

/-- Claim C3: version numbers are contiguous `1..N`: a chain of imports whose
consecutive records differ in (raw) serialization yields the version listing
`N, ..., 1` — equivalently, membership in it is exactly `1 ≤ v ≤ N` — and the
first import of a job always writes version 1. -/
theorem import_versions_contiguous (rs : List Json) (h : List.Chain' neSer rs) :
    listVersionsDesc (runImports rs) = (List.range' 1 rs.length).reverse
    ∧ (∀ v, v ∈ listVersionsDesc (runImports rs) ↔ 1 ≤ v ∧ v ≤ rs.length)
    ∧ (∀ r : Json, importJob emptyJobStore r = (⟨[(1, r)], some r⟩, ⟨1, true⟩)) := by
  have hs := runImports_eq_storeOf rs h
  refine ⟨?_, ?_, ?_⟩
  · rw [hs, listVersionsDesc_storeOf]
  · intro v
    rw [hs, listVersionsDesc_storeOf, List.mem_reverse, List.mem_range'_1]
    omega
  · intro r
    rfl

/-- Witness for claim C3: two content-changing imports produce exactly the
versions `2, 1` (descending). -/
theorem import_versions_contiguous_witness :
    listVersionsDesc (runImports [docA, docB]) = [2, 1] := by
  have h : List.Chain' neSer [docA, docB] :=
    List.chain'_cons.mpr ⟨by decide, List.chain'_singleton _⟩
  have h1 := (import_versions_contiguous [docA, docB] h).1
  rw [h1]
  rfl

/-- Claim C4: for a job built by N ≥ 2 content-changing imports, the CLI
compare with no explicit versions resolves the descending version list, takes
`newer = versions[0]` and `older = versions[1]` — i.e. the last and
second-to-last imported snapshots — and reports the diff in the direction
older -> newer; and any job with fewer than two stored versions fails with
NotEnoughVersions. -/
theorem compare_defaults_latest_previous (rs : List Json) (r1 r2 : Json) (full : Bool)
    (h : List.Chain' neSer (rs ++ [r1, r2])) :
    compareAction (runImports (rs ++ [r1, r2])) full =
      .report r1 r2 (summarizedOutput r1 r2)
        (if full then some (fullDiffParts r1 r2) else none)
    ∧ (∀ s : JobStore, s.entries.length < 2 → compareAction s full = .notEnoughVersions) := by
  constructor
  · rw [runImports_eq_storeOf _ h]
    have hlen : (rs ++ [r1, r2]).length = rs.length + 2 := by simp
    have hv : listVersionsDesc (storeOf (rs ++ [r1, r2])) =
        (rs.length + 2) :: (rs.length + 1) :: (List.range' 1 rs.length).reverse := by
      rw [listVersionsDesc_storeOf, hlen, reverse_range'_succ, reverse_range'_succ]
    have hl1 : lookupNum (storeOf (rs ++ [r1, r2])).entries (rs.length + 1) = some r1 := by
      show lookupNum (numberFrom 0 (rs ++ [r1, r2])) (rs.length + 1) = some r1
      have hk := lookupNum_numberFrom (rs ++ [r1, r2]) 0 rs.length (by simp)
      simp only [Nat.zero_add] at hk
      rw [hk, List.getElem?_append_right (le_refl rs.length)]
      simp
    have hl2 : lookupNum (storeOf (rs ++ [r1, r2])).entries (rs.length + 2) = some r2 := by
      show lookupNum (numberFrom 0 (rs ++ [r1, r2])) (rs.length + 2) = some r2
      have hk := lookupNum_numberFrom (rs ++ [r1, r2]) 0 (rs.length + 1) (by simp)
      simp only [Nat.zero_add] at hk
      have harith : rs.length + 1 + 1 = rs.length + 2 := by omega
      rw [harith] at hk
      rw [hk, List.getElem?_append_right (by omega)]
      have : rs.length + 1 - rs.length = 1 := by omega
      rw [this]
      simp
    have hnlt : ¬ ((listVersionsDesc (storeOf (rs ++ [r1, r2]))).length < 2) := by
      rw [hv]
      simp
    simp only [compareAction, hnlt, if_false, hv, List.getD, List.get?_eq_getElem?,
      List.getElem?_cons_zero, List.getElem?_cons_succ, Option.getD_some, hl1, hl2]
    rw [if_neg (by simp)]
  · intro s hs
    have hlen : (listVersionsDesc s).length = s.entries.length := by
      rw [listVersionsDesc, sortVersionsDesc_length, List.length_map]
    have hlt : (listVersionsDesc s).length < 2 := by omega
    simp only [compareAction, hlt, if_true]

/-- Witness for claim C4: with exactly two versions, compare reports
version 1 (older) against version 2 (newer) without explicit version
numbers. -/
theorem compare_defaults_latest_previous_witness :
    compareAction (runImports ([] ++ [docA, docB])) false =
      .report docA docB (summarizedOutput docA docB) none := by
  have h : List.Chain' neSer ([] ++ [docA, docB]) :=
    List.chain'_cons.mpr ⟨by decide, List.chain'_singleton _⟩
  have h1 := (compare_defaults_latest_previous [] docA docB false h).1
  simpa using h1

/-- The structural diff of a document with itself is empty. -/
theorem diffJson_self (x : Json) : diffJson x x = [] := by
  have h : (canonicalSerialize x == canonicalSerialize x) = true := beq_self_eq_true _
  cases x <;> simp_all [diffJson.eq_def]

/-- The line diff of a line list with itself consists only of context
parts. -/
theorem lineDiff_self (l : List String) :
    lineDiff l l = l.map (fun s => ⟨false, false, s⟩) := by
  induction l with
  | nil => rfl
  | cons x xs ih => simp [lineDiff, ih]

/-- Claim C5: diff identity — the summarized diff of any document with itself
renders exactly "No differences found.", and the full line diff of a document
with itself consists only of context parts, with no added and no removed
part. -/
theorem diff_identity (x : Json) :
    summarizedOutput x x = "No differences found."
    ∧ (∀ p ∈ fullDiffParts x x, p.added = false ∧ p.removed = false) := by
  constructor
  · show (let d := diffString x x; if d == "" then "No differences found." else d) = _
    rw [diffString, diffJson_self]
    rfl
  · intro p hp
    rw [fullDiffParts, lineDiff_self] at hp
    rcases List.mem_map.mp hp with ⟨s, _, rfl⟩
    exact ⟨rfl, rfl⟩

/-- Witness for claim C5 at a concrete document. -/
theorem diff_identity_witness :
    summarizedOutput docA docA = "No differences found."
    ∧ ((fullDiffParts docA docA).filter (fun p => p.added || p.removed)) = [] := by
  refine ⟨(diff_identity docA).1, ?_⟩
  rw [List.filter_eq_nil_iff]
  intro p hp
  have h := (diff_identity docA).2 p hp
  simp [h.1, h.2]

/-- Claim C6: the JSON export never applies column filtering — for any
settings and any `--settings` flag, a non-empty job set exports to
`exports/jobs.json` the pretty-printed array of the FULL entries (the whole
`job` document plus the `datafeed` document), one per stored job. -/
theorem export_json_full_records (settings : Settings) (flag : Bool) (latests : List Json)
    (h : latests ≠ []) :
    exportAction "json" settings flag latests =
      .ok ("exports/jobs.json", serializePretty (.arr (latests.map fullEntry)))
    ∧ (latests.map fullEntry).length = latests.length := by
  refine ⟨?_, by simp⟩
  have hfmt : toLowerAscii "json" = "json" := by decide
  have hc : ("json" == "csv") = false := by decide
  have hm : ("json" == "md") = false := by decide
  have hj : ("json" == "json") = true := by decide
  have hne : (latests.map fullEntry).isEmpty = false := by
    cases latests with
    | nil => cases h rfl
    | cons a as => rfl
  simp only [exportAction, hfmt, hc, hm, hj, Bool.or_self, Bool.and_false]
  simp [hne]

/-- Witness for claim C6: even with configured columns and the `--settings`
flag, the JSON export of one job is the full record. -/
theorem export_json_full_records_witness :
    exportAction "json" ⟨["job_id"]⟩ true [docA] =
      .ok ("exports/jobs.json", serializePretty (.arr [fullEntry docA])) := by
  have h := (export_json_full_records ⟨["job_id"]⟩ true [docA] (by simp)).1
  simpa using h

/-- Claim C7, counterexample: with an empty configured column list the search
table's headers are NOT the spec's default column list — there is no fallback
in the code (`tableHeaders = selectedColumns`, `src/mlcli.js:151`) — and the
projection of a row has zero columns. -/
theorem select_columns_empty_counterexample :
    (searchTable [] [[("Job_ID", "j1")]]).1 ≠ specDefaultColumns
    ∧ (searchTable [] [[("Job_ID", "j1")]]).2 = [[]] := by
  decide

/-- Claim C7 as amended: the projection uses exactly the configured columns
with no default fallback: the headers are the configured columns, every
projected row has exactly one cell per configured column (so an empty
configuration yields a zero-column projection), and a column absent from a
row renders as "N/A". -/
theorem select_columns_amended (cols : List String) (rows : List (List (String × String))) :
    (searchTable cols rows).1 = cols
    ∧ (∀ r ∈ (searchTable cols rows).2, r.length = cols.length)
    ∧ (cols = [] → (searchTable cols rows).2 = rows.map (fun _ => []))
    ∧ (∀ row ∈ rows, ∀ c ∈ cols,
        (row.find? (fun kv => kv.1 == c)) = none → "N/A" ∈ projectRow cols row) := by
  refine ⟨rfl, ?_, ?_, ?_⟩
  · intro r hr
    rcases List.mem_map.mp hr with ⟨row, _, rfl⟩
    simp [projectRow]
  · rintro rfl
    have hp : projectRow ([] : List String) = fun _ => [] := funext (fun _ => rfl)
    simp [searchTable, hp]
  · intro row _ c hc hnone
    refine List.mem_map.mpr ⟨c, hc, ?_⟩
    simp [rowCell, hnone]

/-- Witness for the amended claim C7: a configured column missing from the
row renders as "N/A", and the headers are the configured columns. -/
theorem select_columns_amended_witness :
    (searchTable ["rule_name"] [[("Job_ID", "j1")]]).1 = ["rule_name"]
    ∧ "N/A" ∈ projectRow ["rule_name"] [("Job_ID", "j1")] := by
  have h := select_columns_amended ["rule_name"] [[("Job_ID", "j1")]]
  exact ⟨h.1, h.2.2.2 [("Job_ID", "j1")] (by simp) "rule_name" (by simp) (by decide)⟩

/-- Hex encoding yields two characters per byte. -/
theorem hexChars_length (bs : List Nat) : (hexChars bs).length = 2 * bs.length := by
  induction bs with
  | nil => rfl
  | cons b bs ih =>
    simp only [hexChars, byteToHexChars, List.cons_append, List.nil_append,
      List.length_cons, ih]
    omega

/-- The hex digit map is injective on digits. -/
theorem hexDigitChar_inj :
    ∀ a < 16, ∀ b < 16, hexDigitChar a = hexDigitChar b → a = b := by
  decide

/-- Hex encoding is injective on byte sequences. -/
theorem hexChars_inj : ∀ xs ys : List Nat, (∀ b ∈ xs, b < 256) → (∀ b ∈ ys, b < 256) →
    hexChars xs = hexChars ys → xs = ys := by
  intro xs
  induction xs with
  | nil =>
    intro ys _ _ h
    cases ys with
    | nil => rfl
    | cons y ys => simp [hexChars, byteToHexChars] at h
  | cons x xs ih =>
    intro ys hx hy h
    cases ys with
    | nil => simp [hexChars, byteToHexChars] at h
    | cons y ys =>
      simp only [hexChars, byteToHexChars, List.cons_append, List.nil_append,
        List.cons.injEq] at h
      obtain ⟨h1, h2, h3⟩ := h
      have hx0 : x < 256 := hx x (by simp)
      have hy0 : y < 256 := hy y (by simp)
      have e1 : x / 16 = y / 16 := hexDigitChar_inj _ (by omega) _ (by omega) h1
      have e2 : x % 16 = y % 16 := hexDigitChar_inj _ (by omega) _ (by omega) h2
      have hxy : x = y := by omega
      subst hxy
      rw [ih ys (fun b hb => hx b (by simp [hb])) (fun b hb => hy b (by simp [hb])) h3]

/-- Claim C8: `auth --generate` derives the credential as the hex encoding of
32 fresh random bytes (a 64-hex-character, 256-bit token, injectively
determined by the random input), persists it overwriting any previous
credential, and afterwards validation accepts exactly that token: the exact
key is authorized, while a missing key, the empty string, any other string,
and the previous key are all unauthorized. -/
theorem generate_key_validate (r : List Nat) (prevKey : Option String)
    (hr : r.length = 32) (hb : ∀ b ∈ r, b < 256)
    (hprev : prevKey ≠ some (hexEncode r)) :
    (authGenerate r).1.apiKey = some (hexEncode r)
    ∧ (hexEncode r).length = 64
    ∧ apiAuth (authGenerate r).1 (some (hexEncode r)) = .authorized
    ∧ apiAuth (authGenerate r).1 none = .unauthorized
    ∧ apiAuth (authGenerate r).1 (some "") = .unauthorized
    ∧ (∀ other : String, other ≠ hexEncode r →
        apiAuth (authGenerate r).1 (some other) = .unauthorized)
    ∧ apiAuth (authGenerate r).1 prevKey = .unauthorized
    ∧ (∀ r2 : List Nat, (∀ b ∈ r2, b < 256) → hexEncode r2 = hexEncode r → r2 = r) := by
  have hlen : (hexEncode r).length = 64 := by
    show (hexChars r).length = 64
    rw [hexChars_length, hr]
  have hne : hexEncode r ≠ "" := by
    intro e
    rw [e] at hlen
    exact absurd hlen (by decide)
  have hbeq : (hexEncode r == "") = false := beq_eq_false_iff_ne.mpr hne
  have hother : ∀ other : String, other ≠ hexEncode r →
      apiAuth (authGenerate r).1 (some other) = .unauthorized := by
    intro other ho
    by_cases hoe : other = ""
    · subst hoe
      simp [apiAuth, authGenerate, saveAuth, truthy, hbeq]
    · have hob : (other == hexEncode r) = false := beq_eq_false_iff_ne.mpr ho
      have hoeb : (other == "") = false := beq_eq_false_iff_ne.mpr hoe
      simp [apiAuth, authGenerate, saveAuth, truthy, hbeq, hob, hoeb]
  refine ⟨rfl, hlen, ?_, ?_, ?_, hother, ?_, ?_⟩
  · simp [apiAuth, authGenerate, saveAuth, truthy, hbeq]
  · simp [apiAuth, authGenerate, saveAuth, truthy, hbeq]
  · simp [apiAuth, authGenerate, saveAuth, truthy, hbeq]
  · cases prevKey with
    | none => simp [apiAuth, authGenerate, saveAuth, truthy, hbeq]
    | some p =>
      have hp : p ≠ hexEncode r := by
        intro e; exact hprev (by rw [e])
      exact hother p hp
  · intro r2 hb2 he
    have hchars : hexChars r2 = hexChars r := congrArg String.data he
    exact hexChars_inj r2 r hb2 hb hchars

/-- Witness for claim C8 with the concrete all-zero random input. -/
theorem generate_key_validate_witness :
    apiAuth (authGenerate (List.replicate 32 0)).1
        (some (hexEncode (List.replicate 32 0))) = .authorized
    ∧ apiAuth (authGenerate (List.replicate 32 0)).1 none = .unauthorized
    ∧ apiAuth (authGenerate (List.replicate 32 0)).1 (some "") = .unauthorized := by
  have h := generate_key_validate (List.replicate 32 0) none (by decide) (by decide) (by simp)
  exact ⟨h.2.2.1, h.2.2.2.1, h.2.2.2.2.1⟩

/-- Claim C9: exporting with an empty job set fails with NoJobsToExport and a
non-zero process exit for every requested format, and no export file is
produced (the action yields no file/contents pair). -/
theorem export_empty_fails (format : String) (settings : Settings) (flag : Bool) :
    exportAction format settings flag [] = .error .noJobsToExport
    ∧ exitCodeOf (exportAction format settings flag []) = 1 := by
  have h : exportAction format settings flag [] = .error .noJobsToExport := by
    simp [exportAction]
  exact ⟨h, by rw [h]; rfl⟩

/-- Claim C10: on the HTTP compare route for an existing job, supplying both
`version1` and `version2` (truthy, i.e. present and non-empty) bypasses the
fewer-than-two-versions check entirely: the request yields 200 exactly when
both requested version files exist and the 400 "versions do not exist" error
otherwise — even for a job with a single stored version — while the 400
NotEnoughVersions response can only arise when fewer than two versions exist
AND at least one parameter is falsy. -/
theorem version_match_cases (a b : Option Json) :
    versionMatch a b ≠ CompareResponse.notEnoughVersions
    ∧ (a = none ∨ b = none → versionMatch a b = .versionsMissing) := by
  rcases a with _ | j1 <;> rcases b with _ | j2 <;> simp [versionMatch]

/-- Claim C10: on the HTTP compare route for an existing job, supplying both
`version1` and `version2` (truthy, i.e. present and non-empty) bypasses the
fewer-than-two-versions check entirely: the request yields 200 exactly when
both requested version files exist and the 400 "versions do not exist" error
otherwise — even for a job with a single stored version — while the 400
NotEnoughVersions response can only arise when fewer than two versions exist
AND at least one parameter is falsy. -/
theorem compare_explicit_versions_bypass (entries : List (Nat × Json)) (v1 v2 : Option String)
    (h1 : truthy v1 = true) (h2 : truthy v2 = true) :
    compareHandler true entries v1 v2 ≠ .notEnoughVersions
    ∧ (∀ j1 j2, findVersion entries (v1.getD "") = some j1 →
        findVersion entries (v2.getD "") = some j2 →
        compareHandler true entries v1 v2 = .ok (summarizedOutput j1 j2))
    ∧ ((findVersion entries (v1.getD "") = none ∨ findVersion entries (v2.getD "") = none) →
        compareHandler true entries v1 v2 = .versionsMissing)
    ∧ (∀ (e : List (Nat × Json)) (w1 w2 : Option String),
        compareHandler true e w1 w2 = .notEnoughVersions →
        (sortVersionsDesc (e.map (·.1))).length < 2
          ∧ (truthy w1 = false ∨ truthy w2 = false)) := by
  have hmain : compareHandler true entries v1 v2 =
      versionMatch (findVersion entries (v1.getD "")) (findVersion entries (v2.getD "")) := by
    simp only [compareHandler, Bool.not_true, Bool.false_eq_true, if_false, h1, h2,
      Bool.true_eq_false, or_self, and_false, eq_self_iff_true, if_true]
  refine ⟨?_, ?_, ?_, ?_⟩
  · rw [hmain]
    exact (version_match_cases _ _).1
  · intro j1 j2 hA hB
    rw [hmain, hA, hB]
    rfl
  · intro hOr
    rw [hmain]
    exact (version_match_cases _ _).2 hOr
  · intro e w1 w2 hres
    by_cases hc : (sortVersionsDesc (e.map (·.1))).length < 2
        ∧ (truthy w1 = false ∨ truthy w2 = false)
    · exact hc
    · exfalso
      have hne : compareHandler true e w1 w2 ≠ .notEnoughVersions := by
        simp only [compareHandler, Bool.not_true, Bool.false_eq_true, if_false, if_neg hc]
        exact (version_match_cases _ _).1
      exact hne hres

/-- Witness for claim C10: a job with a single stored version compares
successfully when both parameters name that version. -/
theorem compare_explicit_versions_bypass_witness :
    truthy (some "1") = true
    ∧ compareHandler true [(1, Json.null)] (some "1") (some "1") = .ok "No differences found." := by
  have h := compare_explicit_versions_bypass [(1, Json.null)] (some "1") (some "1")
    (by decide) (by decide)
  refine ⟨by decide, ?_⟩
  have hf : findVersion [(1, Json.null)] ((some "1").getD "") = some Json.null := rfl
  have hok := h.2.1 Json.null Json.null hf hf
  rw [hok]
  have hs : summarizedOutput Json.null Json.null = "No differences found." := by decide
  rw [hs]
